import Mathlib

/-!
Verification of the type-utility catalogue of `mapped-types.ts` /
`utility-types.ts` and of the runtime guards of `aliases-and-guards.ts`.

The type-level operators are embedded shallowly: `Ty` is the fragment of the
TypeScript type language the operators act on, and each exported alias becomes
a Lean function on `Ty` translated clause by clause from its source
definition.  Unions are kept as binary trees whose leaves are the flattened
members (TypeScript flattens unions); a distributive conditional type maps
over all leaves, which `distrib` implements by recursion.  Equality of `Ty`
values corresponds to identity of the printed, normalized type expressions
that the repository's snapshot tests compare.
-/

/-- Runtime JavaScript values, as needed by the runtime guards of
`aliases-and-guards.ts`.  Modelled from the spec: the source file defining
`Primitive`, `Falsy`, `isPrimitive` and `isFalsy` is not under `src/` (only
its two test files are), so the value domain follows the spec text: booleans,
numbers (taken as integers: the falsy set involves only numeric zero),
strings, `null`, `undefined`, symbols, plain objects, arrays and functions. -/
inductive JSVal where
  | boolean (b : Bool)
  | number (n : Int)
  | str (s : String)
  | nullV
  | undefinedV
  | symbol (id : Nat)
  | object (fields : List (String × JSVal))
  | array (elems : List JSVal)
  | function (id : Nat)

/-- Modelled from the spec: `isFalsy` (from the missing
`aliases-and-guards.ts`) returns true iff the value is one of the fixed falsy
set: `false`, the empty string, numeric zero, `null`, `undefined`. -/
def isFalsy : JSVal → Bool
  | .boolean b => !b
  | .str s => s == ""
  | .number n => n == 0
  | .nullV => true
  | .undefinedV => true
  | _ => false

/-- Modelled from the spec: `isPrimitive` (from the missing
`aliases-and-guards.ts`) returns true iff the value's runtime class is in the
fixed closed set: boolean, number, string, null, undefined, symbol. -/
def isPrimitive : JSVal → Bool
  | .boolean _ => true
  | .number _ => true
  | .str _ => true
  | .nullV => true
  | .undefinedV => true
  | .symbol _ => true
  | _ => false

/-- Membership of a runtime value in the type-level `Primitive` union
(glossary: boolean, number, string, null, undefined, symbol). -/
def isPrimVal : JSVal → Bool
  | .boolean _ => true
  | .number _ => true
  | .str _ => true
  | .nullV => true
  | .undefinedV => true
  | .symbol _ => true
  | _ => false

/-- Membership of a runtime value in the type `Primitive[]`: an array whose
elements all belong to the `Primitive` union. -/
def isPrimArray : JSVal → Bool
  | .array es => es.all isPrimVal
  | _ => false

/-- The fragment of the TypeScript type language that the operators of
`mapped-types.ts` and `utility-types.ts` act on.  Unions are binary trees of
members (TypeScript keeps unions flattened; a nested `union` here stands for
the flattened union of its leaves).  An object field records its name, its
optional (`?`) and `readonly` modifiers, and its type.  `inter` is the
intersection `A & B` of object shapes, as built inside `Overwrite` and
`Assign`.  `roarr` is `ReadonlyArray`; the helper interface
`_DeepReadonlyArray<T> extends ReadonlyArray<DeepReadonly<T>>` is identified
with its base type (it declares no members of its own). -/
inductive Ty where
  | str
  | num
  | boolean
  | sym
  | nul
  | undef
  | never
  | fn (params : List Ty) (ret : Ty)
  | arr (elem : Ty)
  | roarr (elem : Ty)
  | obj (fields : List (String × Bool × Bool × Ty))
  | inter (a b : Ty)
  | union (a b : Ty)

/-- Shorthand for an object field: name, optional flag, readonly flag, type. -/
abbrev ObjField := String × Bool × Bool × Ty

/-- Source `SetIntersection<A, B> = A extends B ? A : never`, specialized to
unions of literal types, where a member of `A` is assignable to `B` exactly
when it occurs among `B`'s members; the distributed union is the sublist of
`A`'s members occurring in `B`. -/
def SetIntersection {α : Type} [DecidableEq α] (A B : List α) : List α :=
  A.filter (fun x => decide (x ∈ B))

/-- Source `SetDifference<A, B> = A extends B ? never : A`, specialized to
unions of literal types: the sublist of `A`'s members not occurring in `B`. -/
def SetDifference {α : Type} [DecidableEq α] (A B : List α) : List α :=
  A.filter (fun x => decide (x ∉ B))

/-- Source `SetComplement<A, A1 extends A> = SetDifference<A, A1>`. -/
def SetComplement {α : Type} [DecidableEq α] (A A1 : List α) : List α :=
  SetDifference A A1

/-- Intersection of two key sets, used for `keyof` of a union type:
`keyof (A | B)` is the set of keys common to `A` and `B`. -/
def interKeys (a b : List String) : List String :=
  a.filter (fun k => decide (k ∈ b))

/-- Embedding of `keyof T`: the key names of an object shape; the combined
keys of an intersection; the common keys of a union.  The remaining types
have no named properties relevant to the operators under study, so their key
set is empty. -/
def tyKeys : Ty → List String
  | .obj fs => fs.map (fun f => f.1)
  | .inter a b => tyKeys a ++ tyKeys b
  | .union a b => interKeys (tyKeys a) (tyKeys b)
  | _ => []

/-- Property list of an object shape, flattening intersections of object
shapes (as `Pick<I, keyof I>` does in the source's `Overwrite`/`Assign`). -/
def flattenFields : Ty → List ObjField
  | .obj fs => fs
  | .inter a b => flattenFields a ++ flattenFields b
  | _ => []

/-- Embedding of `Pick<T, K>`: keep the properties of `T` whose names lie in
`K`, preserving their modifiers.  `Pick` is a homomorphic mapped type, so over
a union it distributes member by member. -/
def pick : Ty → List String → Ty
  | .union a b, ks => .union (pick a ks) (pick b ks)
  | t, ks => .obj ((flattenFields t).filter (fun f => decide (f.1 ∈ ks)))

/-- Embedding of a distributive conditional type `T extends any ? F T : never`:
applied to a union it maps `F` over every member. -/
def distrib (F : Ty → Ty) : Ty → Ty
  | .union a b => .union (distrib F a) (distrib F b)
  | t => F t

/-- Source `Diff<T, U> = Pick<T, SetDifference<keyof T, keyof U>>`.  Note the
absence of a distributive conditional: `keyof T` of a union `T` is the
collapsed common key set. -/
def Diff (T U : Ty) : Ty :=
  pick T (SetDifference (tyKeys T) (tyKeys U))

/-- Source
`Omit<T, K> = T extends any ? Pick<T, SetDifference<keyof T, K>> : never`:
a distributive conditional over `T`. -/
def Omit (T : Ty) (K : List String) : Ty :=
  distrib (fun t => pick t (SetDifference (tyKeys t) K)) T

/-- Source
`Intersection<T, U> = T extends any ? Pick<T, SetIntersection<keyof T, keyof U>> : never`:
a distributive conditional over `T`. -/
def Intersection (T U : Ty) : Ty :=
  distrib (fun t => pick t (SetIntersection (tyKeys t) (tyKeys U))) T

/-- Source `Overwrite<T, U, I = Diff<T, U> & Intersection<U, T>> = Pick<I, keyof I>`. -/
def Overwrite (T U : Ty) : Ty :=
  pick (Ty.inter (Diff T U) (Intersection U T)) (tyKeys (Ty.inter (Diff T U) (Intersection U T)))

/-- Source
`Assign<T, U, I = Diff<T, U> & Intersection<U, T> & Diff<U, T>> = Pick<I, keyof I>`. -/
def Assign (T U : Ty) : Ty :=
  pick (Ty.inter (Ty.inter (Diff T U) (Intersection U T)) (Diff U T))
    (tyKeys (Ty.inter (Ty.inter (Diff T U) (Intersection U T)) (Diff U T)))

/-- Test for the type `never`. -/
def isNever : Ty → Bool
  | .never => true
  | _ => false

/-- Union of two types with the TypeScript normalization `X | never = X`. -/
def unionNorm (a b : Ty) : Ty :=
  if isNever a then b else if isNever b then a else Ty.union a b

/-- Source `NonUndefined<A> = A extends undefined ? never : A`: a distributive
conditional sending the member `undefined` to `never`; `never` members drop
out of the union. -/
def NonUndefined : Ty → Ty
  | .union a b => unionNorm (NonUndefined a) (NonUndefined b)
  | .undef => .never
  | t => t

/-- The built-in `NonNullable<A> = A extends null | undefined ? never : A`
used by `DeepNonNullable`: removes the members `null` and `undefined`. -/
def NonNullableT : Ty → Ty
  | .union a b => unionNorm (NonNullableT a) (NonNullableT b)
  | .undef => .never
  | .nul => .never
  | t => t

theorem isNever_iff : ∀ t : Ty, isNever t = true ↔ t = Ty.never := by
  intro t
  cases t <;> simp [isNever]

theorem unionNorm_sizeOf_le (a b : Ty) : sizeOf (unionNorm a b) ≤ 1 + sizeOf a + sizeOf b := by
  unfold unionNorm
  by_cases ha : isNever a = true <;> by_cases hb : isNever b = true <;> (simp [ha, hb]; try omega)

theorem nonUndefined_sizeOf_le : (t : Ty) → sizeOf (NonUndefined t) ≤ sizeOf t
  | .str => by simp [NonUndefined]
  | .num => by simp [NonUndefined]
  | .boolean => by simp [NonUndefined]
  | .sym => by simp [NonUndefined]
  | .nul => by simp [NonUndefined]
  | .undef => by simp [NonUndefined]
  | .never => by simp [NonUndefined]
  | .fn ps r => by simp [NonUndefined]
  | .arr e => by simp [NonUndefined]
  | .roarr e => by simp [NonUndefined]
  | .obj fs => by simp [NonUndefined]
  | .inter a b => by simp [NonUndefined]
  | .union a b => by
      have ha := nonUndefined_sizeOf_le a
      have hb := nonUndefined_sizeOf_le b
      have h := unionNorm_sizeOf_le (NonUndefined a) (NonUndefined b)
      simp only [NonUndefined, Ty.union.sizeOf_spec]
      omega

theorem nonNullableT_sizeOf_le : (t : Ty) → sizeOf (NonNullableT t) ≤ sizeOf t
  | .str => by simp [NonNullableT]
  | .num => by simp [NonNullableT]
  | .boolean => by simp [NonNullableT]
  | .sym => by simp [NonNullableT]
  | .nul => by simp [NonNullableT]
  | .undef => by simp [NonNullableT]
  | .never => by simp [NonNullableT]
  | .fn ps r => by simp [NonNullableT]
  | .arr e => by simp [NonNullableT]
  | .roarr e => by simp [NonNullableT]
  | .obj fs => by simp [NonNullableT]
  | .inter a b => by simp [NonNullableT]
  | .union a b => by
      have ha := nonNullableT_sizeOf_le a
      have hb := nonNullableT_sizeOf_le b
      have h := unionNorm_sizeOf_le (NonNullableT a) (NonNullableT b)
      simp only [NonNullableT, Ty.union.sizeOf_spec]
      omega

mutual

/-- Source `DeepReadonly<T>`: a function type is returned unchanged; an array
type `T` becomes `_DeepReadonlyArray<T[number]>`, identified with
`ReadonlyArray<DeepReadonly<T[number]>>`; an object type becomes
`_DeepReadonlyObject<T>` (every property marked `readonly`, its type
transformed recursively); other types are returned unchanged.  A
`ReadonlyArray` is not assignable to `any[]`, so it falls into the object
branch, where the homomorphic mapped type maps its element type.  The
conditional is distributive, so a union maps member by member. -/
def DeepReadonly : Ty → Ty
  | .fn ps r => .fn ps r
  | .arr e => .roarr (DeepReadonly e)
  | .roarr e => .roarr (DeepReadonly e)
  | .obj fs => .obj (DeepReadonlyFields fs)
  | .inter a b => .inter (DeepReadonly a) (DeepReadonly b)
  | .union a b => .union (DeepReadonly a) (DeepReadonly b)
  | t => t

/-- Source `_DeepReadonlyObject<T> = { readonly [P in keyof T]: DeepReadonly<T[P]> }`. -/
def DeepReadonlyFields : List ObjField → List ObjField
  | [] => []
  | (n, o, _, t) :: rest => (n, o, true, DeepReadonly t) :: DeepReadonlyFields rest

end

mutual

/-- Source `DeepRequired<T>`: a function type is returned unchanged; an array
type `T` becomes `_DeepRequiredArray<T[number]>`, that is
`Array<DeepRequired<NonUndefined<T[number]>>>`; an object type becomes
`_DeepRequiredObject<T>` (optionality removed, every property type passed
through `NonUndefined` and transformed recursively); other types are returned
unchanged.  A `ReadonlyArray` falls into the object branch, whose homomorphic
mapped type maps its element type and keeps it read-only. -/
def DeepRequired : Ty → Ty
  | .fn ps r => .fn ps r
  | .arr e => .arr (DeepRequired (NonUndefined e))
  | .roarr e => .roarr (DeepRequired (NonUndefined e))
  | .obj fs => .obj (DeepRequiredFields fs)
  | .inter a b => .inter (DeepRequired a) (DeepRequired b)
  | .union a b => .union (DeepRequired a) (DeepRequired b)
  | t => t
termination_by t => sizeOf t
decreasing_by
  all_goals simp
  all_goals try (have h := nonUndefined_sizeOf_le e; omega)
  all_goals omega

/-- Source `_DeepRequiredObject<T> = { [P in keyof T]-?: DeepRequired<NonUndefined<T[P]>> }`. -/
def DeepRequiredFields : List ObjField → List ObjField
  | [] => []
  | (n, _, r, t) :: rest => (n, false, r, DeepRequired (NonUndefined t)) :: DeepRequiredFields rest
termination_by fs => sizeOf fs
decreasing_by
  all_goals simp
  all_goals (have h := nonUndefined_sizeOf_le t; omega)

end

mutual

/-- Source `DeepNonNullable<T>`: a function type is returned unchanged; an
array type `T` becomes `_DeepNonNullableArray<T[number]>`, that is
`Array<DeepNonNullable<NonNullable<T[number]>>>`; an object type becomes
`_DeepNonNullableObject<T>` (optionality removed, every property type passed
through `NonNullable` and transformed recursively); other types are returned
unchanged. -/
def DeepNonNullable : Ty → Ty
  | .fn ps r => .fn ps r
  | .arr e => .arr (DeepNonNullable (NonNullableT e))
  | .roarr e => .roarr (DeepNonNullable (NonNullableT e))
  | .obj fs => .obj (DeepNonNullableFields fs)
  | .inter a b => .inter (DeepNonNullable a) (DeepNonNullable b)
  | .union a b => .union (DeepNonNullable a) (DeepNonNullable b)
  | t => t
termination_by t => sizeOf t
decreasing_by
  all_goals simp
  all_goals try (have h := nonNullableT_sizeOf_le e; omega)
  all_goals omega

/-- Source `_DeepNonNullableObject<T> = { [P in keyof T]-?: DeepNonNullable<NonNullable<T[P]>> }`. -/
def DeepNonNullableFields : List ObjField → List ObjField
  | [] => []
  | (n, _, r, t) :: rest =>
      (n, false, r, DeepNonNullable (NonNullableT t)) :: DeepNonNullableFields rest
termination_by fs => sizeOf fs
decreasing_by
  all_goals simp
  all_goals (have h := nonNullableT_sizeOf_le t; omega)

end

/-- Source `$Call<Fn extends (...args: any[]) => any> = Fn extends (arg: any) => infer RT ? RT : never`.
The constraint admits any function type, but the conditional tests
assignability to the unary shape `(arg: any) => RT`, which a function type
satisfies exactly when it has at most one parameter (a function with fewer
parameters is assignable to one with more, never the converse); otherwise the
`never` fallback is taken.  Types outside the constraint are rejected at
compile time, modelled here as `never`. -/
def DollarCall : Ty → Ty
  | .fn ps r => if ps.length ≤ 1 then r else .never
  | _ => .never

/-- Test for the primitive leaves of `Ty`, at which the deep transforms
terminate: the conditionals `T extends (...args) => any`, `T extends any[]`
and `T extends object` all fail there, so the final naked `T` is returned. -/
def isPrimTy : Ty → Bool
  | .str => true
  | .num => true
  | .boolean => true
  | .sym => true
  | .nul => true
  | .undef => true
  | _ => false

/-- Lookup of the property named `k` in an object shape. -/
def lookupField (k : String) (T : Ty) : Option ObjField :=
  (flattenFields T).find? (fun f => f.1 == k)

/-- Fixture `Props` from the test files. -/
def Props : Ty :=
  Ty.obj [("name", false, false, Ty.str), ("age", false, false, Ty.num),
    ("visible", false, false, Ty.boolean)]

/-- Fixture `DefaultProps` from the test files. -/
def DefaultProps : Ty := Ty.obj [("age", false, false, Ty.num)]

/-- Fixture `NewProps` from the test files. -/
def NewProps : Ty :=
  Ty.obj [("age", false, false, Ty.str), ("other", false, false, Ty.str)]

example : Diff Props NewProps =
    Ty.obj [("name", false, false, Ty.str), ("visible", false, false, Ty.boolean)] := rfl

example : Omit Props ["age"] =
    Ty.obj [("name", false, false, Ty.str), ("visible", false, false, Ty.boolean)] := rfl

example : Intersection Props DefaultProps = Ty.obj [("age", false, false, Ty.num)] := rfl

example : Overwrite Props NewProps =
    Ty.obj [("name", false, false, Ty.str), ("visible", false, false, Ty.boolean),
      ("age", false, false, Ty.str)] := rfl

example : Assign Props NewProps =
    Ty.obj [("name", false, false, Ty.str), ("visible", false, false, Ty.boolean),
      ("age", false, false, Ty.str), ("other", false, false, Ty.str)] := rfl

example : Diff (Ty.union Props NewProps) DefaultProps =
    Ty.union (Ty.obj []) (Ty.obj []) := rfl

/-- Claim C2: for every input value, `isFalsy` returns true if and only if the
value is one of `false`, the empty string, numeric zero, `null`, `undefined`;
in particular it returns false for each of `' '`, `true`, `{}`, `[]` (and true
on the falsy set, which the equivalence yields). -/
theorem claim_C2 :
    (∀ v : JSVal, isFalsy v = true ↔
      (v = JSVal.boolean false ∨ v = JSVal.str "" ∨ v = JSVal.number 0 ∨
        v = JSVal.nullV ∨ v = JSVal.undefinedV)) ∧
    isFalsy (JSVal.str " ") = false ∧ isFalsy (JSVal.boolean true) = false ∧
    isFalsy (JSVal.object []) = false ∧ isFalsy (JSVal.array []) = false := by
  refine ⟨?_, rfl, rfl, rfl, rfl⟩
  intro v
  cases v <;> simp [isFalsy]

/-- Claim C7: for every value of the union `Primitive | Primitive[]`,
`isPrimitive` returns true exactly when the value lies in the `Primitive`
branch, so the true branch narrows to `Primitive` and the false branch to
`Primitive[]`. -/
theorem claim_C7 (v : JSVal) (h : (isPrimVal v || isPrimArray v) = true) :
    (isPrimitive v = true ↔ isPrimVal v = true) ∧
    (isPrimitive v = false ↔ isPrimArray v = true) := by
  cases v <;> simp_all [isPrimitive, isPrimVal, isPrimArray]

/-- Witness for claim C7 at the primitive value `3`. -/
theorem claim_C7_witness :
    (isPrimVal (JSVal.number 3) || isPrimArray (JSVal.number 3)) = true ∧
    isPrimitive (JSVal.number 3) = true :=
  ⟨rfl, (claim_C7 (JSVal.number 3) rfl).1.mpr rfl⟩

/-- Claim C10: for every union `A` and subset `A1` of `A`, `SetComplement A A1`
and `A1` partition `A`: every element of `A` lies in exactly one of them, so
their union is `A` and their `SetIntersection` is empty. -/
theorem claim_C10 {α : Type} [DecidableEq α] (A A1 : List α) (h : A1 ⊆ A) :
    (∀ x, (x ∈ SetComplement A A1 ∨ x ∈ A1) ↔ x ∈ A) ∧
    SetIntersection (SetComplement A A1) A1 = [] := by
  constructor
  · intro x
    simp only [SetComplement, SetDifference, List.mem_filter, decide_eq_true_eq]
    constructor
    · rintro (⟨hx, _⟩ | hx)
      · exact hx
      · exact h hx
    · intro hx
      by_cases hx1 : x ∈ A1
      · exact Or.inr hx1
      · exact Or.inl ⟨hx, hx1⟩
  · rw [SetIntersection, List.filter_eq_nil_iff]
    intro a ha
    simp only [SetComplement, SetDifference, List.mem_filter, decide_eq_true_eq] at ha
    simp [ha.2]

/-- Witness for claim C10 at `A = '1' | '2' | '3'`, `A1 = '2' | '3'`. -/
theorem claim_C10_witness :
    (["2", "3"] : List String) ⊆ ["1", "2", "3"] ∧
    ((∀ x, (x ∈ SetComplement ["1", "2", "3"] ["2", "3"] ∨ x ∈ (["2", "3"] : List String)) ↔
        x ∈ (["1", "2", "3"] : List String)) ∧
      SetIntersection (SetComplement ["1", "2", "3"] ["2", "3"]) ["2", "3"] = []) :=
  ⟨by decide, claim_C10 ["1", "2", "3"] ["2", "3"] (by decide)⟩

/-- Claim C9 counterexample: the constraint of `$Call` admits the two-parameter
function type `(a: number, b: number) => string`, but `$Call` of it is `never`,
not the return type `string`: a two-parameter function is not assignable to
the tested shape `(arg: any) => RT`, so the fallback `never` branch is
reached. -/
theorem claim_C9_counterexample :
    DollarCall (Ty.fn [Ty.num, Ty.num] Ty.str) ≠ Ty.str := by
  intro h
  simp [DollarCall] at h

/-- Claim C9 (amended): for every function type satisfying the declared
constraint with at most one parameter, `$Call` yields its return type; for two
or more parameters the conditional's `never` fallback is reached, so it is not
unreachable under the constraint. -/
theorem claim_C9 (ps : List Ty) (r : Ty) (h : ps.length ≤ 1) :
    DollarCall (Ty.fn ps r) = r := by
  simp [DollarCall, h]

/-- Witness for amended claim C9 at `(amount: number) => string`. -/
theorem claim_C9_witness :
    ([Ty.num] : List Ty).length ≤ 1 ∧ DollarCall (Ty.fn [Ty.num] Ty.str) = Ty.str :=
  ⟨by decide, claim_C9 [Ty.num] Ty.str (by decide)⟩

/-- Claim C1 (amended): `Omit` and `Intersection` distribute over the members
of a union (their definitions wrap the body in the distributive conditional
`T extends any ? ... : never`), but `Diff` does not: applied to a union it
picks with the collapsed key set `keyof T` (the keys common to all members),
so e.g. `Diff<Props | NewProps, DefaultProps>` is `{} | {}` rather than the
union of the per-member results. -/
theorem claim_C1 (a b : Ty) (K : List String) (U : Ty) :
    Omit (Ty.union a b) K = Ty.union (Omit a K) (Omit b K) ∧
    Intersection (Ty.union a b) U = Ty.union (Intersection a U) (Intersection b U) ∧
    Diff (Ty.union Props NewProps) DefaultProps = Ty.union (Ty.obj []) (Ty.obj []) :=
  ⟨rfl, rfl, rfl⟩

/-- Claim C1 counterexample: `Diff` applied to the union `Props | NewProps`
against `DefaultProps` is not the union of the per-member `Diff`s. -/
theorem claim_C1_counterexample :
    Diff (Ty.union Props NewProps) DefaultProps ≠
      Ty.union (Diff Props DefaultProps) (Diff NewProps DefaultProps) := by
  intro h
  have h1 : Diff (Ty.union Props NewProps) DefaultProps =
      Ty.union (Ty.obj []) (Ty.obj []) := rfl
  have h2 : Diff Props DefaultProps =
      Ty.obj [("name", false, false, Ty.str), ("visible", false, false, Ty.boolean)] := rfl
  have h3 : Diff NewProps DefaultProps = Ty.obj [("other", false, false, Ty.str)] := rfl
  rw [h1, h2, h3] at h
  simp at h

theorem filter_names_setDifference (fs : List ObjField) (ks : List String) :
    fs.filter (fun f => decide (f.1 ∈ SetDifference (fs.map (fun g => g.1)) ks)) =
      fs.filter (fun f => decide (f.1 ∉ ks)) := by
  apply List.filter_congr
  intro f hf
  have hm : f.1 ∈ fs.map (fun g => g.1) := List.mem_map_of_mem _ hf
  simp [SetDifference, List.mem_filter, hm]

theorem filter_names_setIntersection (fs : List ObjField) (ks : List String) :
    fs.filter (fun f => decide (f.1 ∈ SetIntersection (fs.map (fun g => g.1)) ks)) =
      fs.filter (fun f => decide (f.1 ∈ ks)) := by
  apply List.filter_congr
  intro f hf
  have hm : f.1 ∈ fs.map (fun g => g.1) := List.mem_map_of_mem _ hf
  simp [SetIntersection, List.mem_filter, hm]

theorem pick_inter_self (d i : List ObjField) :
    pick (Ty.inter (Ty.obj d) (Ty.obj i)) (tyKeys (Ty.inter (Ty.obj d) (Ty.obj i))) =
      Ty.obj (d ++ i) := by
  simp only [pick, flattenFields, tyKeys]
  congr 1
  rw [List.filter_eq_self]
  intro f hf
  simp only [List.mem_append, List.mem_map, decide_eq_true_eq] at hf ⊢
  rcases hf with h | h
  · exact Or.inl ⟨f, h, rfl⟩
  · exact Or.inr ⟨f, h, rfl⟩

theorem pick_inter3_self (d i e : List ObjField) :
    pick (Ty.inter (Ty.inter (Ty.obj d) (Ty.obj i)) (Ty.obj e))
        (tyKeys (Ty.inter (Ty.inter (Ty.obj d) (Ty.obj i)) (Ty.obj e))) =
      Ty.obj (d ++ i ++ e) := by
  simp only [pick, flattenFields, tyKeys]
  congr 1
  rw [List.filter_eq_self]
  intro f hf
  simp only [List.mem_append, List.mem_map, decide_eq_true_eq] at hf ⊢
  rcases hf with (h | h) | h
  · exact Or.inl (Or.inl ⟨f, h, rfl⟩)
  · exact Or.inl (Or.inr ⟨f, h, rfl⟩)
  · exact Or.inr ⟨f, h, rfl⟩

/-- Normal form of `Overwrite` on two object shapes: the properties of `T`
whose keys are not in `U`, followed by the properties of `U` whose keys are in
`T`. -/
theorem overwrite_obj (ft fu : List ObjField) :
    Overwrite (Ty.obj ft) (Ty.obj fu) =
      Ty.obj (ft.filter (fun f => decide (f.1 ∉ fu.map (fun g => g.1))) ++
        fu.filter (fun f => decide (f.1 ∈ ft.map (fun g => g.1)))) := by
  have hd : Diff (Ty.obj ft) (Ty.obj fu) =
      Ty.obj (ft.filter (fun f => decide (f.1 ∉ fu.map (fun g => g.1)))) := by
    simp only [Diff, pick, flattenFields, tyKeys]
    rw [filter_names_setDifference]
  have hi : Intersection (Ty.obj fu) (Ty.obj ft) =
      Ty.obj (fu.filter (fun f => decide (f.1 ∈ ft.map (fun g => g.1)))) := by
    simp only [Intersection, distrib, pick, flattenFields, tyKeys]
    rw [filter_names_setIntersection]
  rw [Overwrite, hd, hi, pick_inter_self]

/-- Normal form of `Assign` on two object shapes: `Overwrite`'s fields
followed by the properties of `U` whose keys are not in `T`. -/
theorem assign_obj (ft fu : List ObjField) :
    Assign (Ty.obj ft) (Ty.obj fu) =
      Ty.obj (ft.filter (fun f => decide (f.1 ∉ fu.map (fun g => g.1))) ++
        fu.filter (fun f => decide (f.1 ∈ ft.map (fun g => g.1))) ++
        fu.filter (fun f => decide (f.1 ∉ ft.map (fun g => g.1)))) := by
  have hd : Diff (Ty.obj ft) (Ty.obj fu) =
      Ty.obj (ft.filter (fun f => decide (f.1 ∉ fu.map (fun g => g.1)))) := by
    simp only [Diff, pick, flattenFields, tyKeys]
    rw [filter_names_setDifference]
  have hi : Intersection (Ty.obj fu) (Ty.obj ft) =
      Ty.obj (fu.filter (fun f => decide (f.1 ∈ ft.map (fun g => g.1)))) := by
    simp only [Intersection, distrib, pick, flattenFields, tyKeys]
    rw [filter_names_setIntersection]
  have hd2 : Diff (Ty.obj fu) (Ty.obj ft) =
      Ty.obj (fu.filter (fun f => decide (f.1 ∉ ft.map (fun g => g.1)))) := by
    simp only [Diff, pick, flattenFields, tyKeys]
    rw [filter_names_setDifference]
  rw [Assign, hd, hi, hd2, pick_inter3_self]

theorem overwrite_keys (ft fu : List ObjField) (k : String) :
    k ∈ tyKeys (Overwrite (Ty.obj ft) (Ty.obj fu)) ↔ k ∈ ft.map (fun g => g.1) := by
  rw [overwrite_obj]
  simp only [tyKeys, List.map_append, List.mem_append]
  constructor
  · intro h
    rcases h with h | h
    · rcases List.mem_map.mp h with ⟨f, hf, rfl⟩
      exact List.mem_map.mpr ⟨f, (List.mem_filter.mp hf).1, rfl⟩
    · rcases List.mem_map.mp h with ⟨f, hf, rfl⟩
      have h2 := (List.mem_filter.mp hf).2
      simp only [decide_eq_true_eq] at h2
      exact h2
  · intro h
    rcases List.mem_map.mp h with ⟨f, hf, rfl⟩
    by_cases hu : f.1 ∈ fu.map (fun g => g.1)
    · rcases List.mem_map.mp hu with ⟨g, hg, hgf⟩
      refine Or.inr (List.mem_map.mpr ⟨g, List.mem_filter.mpr ⟨hg, ?_⟩, hgf⟩)
      simp only [decide_eq_true_eq]
      rw [hgf]
      exact List.mem_map.mpr ⟨f, hf, rfl⟩
    · refine Or.inl (List.mem_map.mpr ⟨f, List.mem_filter.mpr ⟨hf, ?_⟩, rfl⟩)
      simp only [decide_eq_true_eq]
      exact hu

/-- Claim C8: for every pair of object shapes `T` and `U`, the key set of
`Overwrite<T, U>` equals the key set of `T` exactly, regardless of the keys of
`U`: no key of `T` is removed and no key outside `T` is introduced. -/
theorem claim_C8 (ft fu : List ObjField) :
    ∀ k, k ∈ tyKeys (Overwrite (Ty.obj ft) (Ty.obj fu)) ↔ k ∈ tyKeys (Ty.obj ft) :=
  fun k => overwrite_keys ft fu k

theorem find?_name_of_mem (fs : List ObjField) (hnd : (fs.map (fun g => g.1)).Nodup)
    {f : ObjField} (hf : f ∈ fs) : fs.find? (fun g => g.1 == f.1) = some f := by
  induction fs with
  | nil => cases hf
  | cons g rest ih =>
    simp only [List.map_cons, List.nodup_cons] at hnd
    rcases List.mem_cons.mp hf with rfl | hmem
    · rw [List.find?_cons_of_pos _ (by simp)]
    · have hne : ¬((fun g : ObjField => g.1 == f.1) g) = true := by
        simp only [beq_iff_eq]
        intro he
        exact hnd.1 (he ▸ List.mem_map_of_mem _ hmem)
      rw [List.find?_cons_of_neg (p := fun g : ObjField => g.1 == f.1) rest hne]
      exact ih hnd.2 hmem

theorem find?_name_of_not_mem (fs : List ObjField) {k : String}
    (h : k ∉ fs.map (fun g => g.1)) : fs.find? (fun g => g.1 == k) = none := by
  rw [List.find?_eq_none]
  intro x hx
  simp only [beq_iff_eq]
  intro he
  exact h (he ▸ List.mem_map_of_mem _ hx)

theorem nodup_filter_names (fs : List ObjField) (p : ObjField → Bool)
    (h : (fs.map (fun g => g.1)).Nodup) : ((fs.filter p).map (fun g => g.1)).Nodup :=
  h.sublist ((fs.filter_sublist).map (fun g => g.1))

/-- Claim C5: for object shapes `T` and `U` (with well-formed, duplicate-free
key lists), `Overwrite<T, U>` is `T` with every property whose key also exists
in `U` replaced by `U`'s version, keeps `T`'s other properties unchanged, adds
no property unique to `U`, and its key set is that of `T`; in particular
`Overwrite<Props, NewProps>` has exactly the properties
`{name: string; age: string; visible: boolean}`. -/
theorem claim_C5 (ft fu : List ObjField)
    (hT : (ft.map (fun f => f.1)).Nodup) (hU : (fu.map (fun f => f.1)).Nodup) :
    (∀ f ∈ ft, f.1 ∉ fu.map (fun g => g.1) →
      lookupField f.1 (Overwrite (Ty.obj ft) (Ty.obj fu)) = some f) ∧
    (∀ f ∈ fu, f.1 ∈ ft.map (fun g => g.1) →
      lookupField f.1 (Overwrite (Ty.obj ft) (Ty.obj fu)) = some f) ∧
    (∀ k, k ∈ tyKeys (Overwrite (Ty.obj ft) (Ty.obj fu)) ↔ k ∈ ft.map (fun g => g.1)) ∧
    (flattenFields (Overwrite Props NewProps)).Perm
      [("name", false, false, Ty.str), ("age", false, false, Ty.str),
        ("visible", false, false, Ty.boolean)] := by
  refine ⟨?_, ?_, fun k => overwrite_keys ft fu k, ?_⟩
  · intro f hf hfu
    rw [lookupField, overwrite_obj]
    simp only [flattenFields]
    rw [List.find?_append]
    have hd : (ft.filter (fun f => decide (f.1 ∉ fu.map (fun g => g.1)))).find?
        (fun g => g.1 == f.1) = some f := by
      apply find?_name_of_mem _ (nodup_filter_names _ _ hT)
      exact List.mem_filter.mpr ⟨hf, decide_eq_true hfu⟩
    rw [hd, Option.or_some]
  · intro f hf hft
    rw [lookupField, overwrite_obj]
    simp only [flattenFields]
    rw [List.find?_append]
    have hd : (ft.filter (fun f => decide (f.1 ∉ fu.map (fun g => g.1)))).find?
        (fun g => g.1 == f.1) = none := by
      apply find?_name_of_not_mem
      intro hmem
      rcases List.mem_map.mp hmem with ⟨g, hg, hgf⟩
      have := (List.mem_filter.mp hg).2
      simp only [decide_eq_true_eq] at this
      exact this (hgf ▸ List.mem_map_of_mem _ hf)
    have hi : (fu.filter (fun f => decide (f.1 ∈ ft.map (fun g => g.1)))).find?
        (fun g => g.1 == f.1) = some f := by
      apply find?_name_of_mem _ (nodup_filter_names _ _ hU)
      exact List.mem_filter.mpr ⟨hf, decide_eq_true hft⟩
    rw [hd, hi, Option.none_or]
  · have he : Overwrite Props NewProps =
        Ty.obj [("name", false, false, Ty.str), ("visible", false, false, Ty.boolean),
          ("age", false, false, Ty.str)] := rfl
    rw [he]
    simp only [flattenFields]
    exact List.Perm.cons _ (List.Perm.swap _ _ _)

/-- Witness for claim C5 at the `Props`/`NewProps` fixture. -/
theorem claim_C5_witness :
    ((([("name", false, false, Ty.str), ("age", false, false, Ty.num),
        ("visible", false, false, Ty.boolean)] : List ObjField).map (fun f => f.1)).Nodup ∧
      (([("age", false, false, Ty.str), ("other", false, false, Ty.str)] :
        List ObjField).map (fun f => f.1)).Nodup) ∧
    lookupField "name" (Overwrite Props NewProps) = some ("name", false, false, Ty.str) := by
  refine ⟨⟨by decide, by decide⟩, ?_⟩
  exact (claim_C5
    [("name", false, false, Ty.str), ("age", false, false, Ty.num),
      ("visible", false, false, Ty.boolean)]
    [("age", false, false, Ty.str), ("other", false, false, Ty.str)]
    (by decide) (by decide)).1 ("name", false, false, Ty.str) (by simp) (by decide)

theorem assign_keys (ft fu : List ObjField) (k : String) :
    k ∈ tyKeys (Assign (Ty.obj ft) (Ty.obj fu)) ↔
      (k ∈ ft.map (fun g => g.1) ∨ k ∈ fu.map (fun g => g.1)) := by
  rw [assign_obj]
  simp only [tyKeys, List.map_append, List.mem_append]
  constructor
  · intro h
    rcases h with (h | h) | h
    · rcases List.mem_map.mp h with ⟨f, hf, rfl⟩
      exact Or.inl (List.mem_map.mpr ⟨f, (List.mem_filter.mp hf).1, rfl⟩)
    · rcases List.mem_map.mp h with ⟨f, hf, rfl⟩
      exact Or.inr (List.mem_map.mpr ⟨f, (List.mem_filter.mp hf).1, rfl⟩)
    · rcases List.mem_map.mp h with ⟨f, hf, rfl⟩
      exact Or.inr (List.mem_map.mpr ⟨f, (List.mem_filter.mp hf).1, rfl⟩)
  · intro h
    rcases h with h | h
    · rcases List.mem_map.mp h with ⟨f, hf, rfl⟩
      by_cases hu : f.1 ∈ fu.map (fun g => g.1)
      · rcases List.mem_map.mp hu with ⟨g, hg, hgf⟩
        refine Or.inl (Or.inr (List.mem_map.mpr ⟨g, List.mem_filter.mpr ⟨hg, ?_⟩, hgf⟩))
        exact decide_eq_true (hgf ▸ List.mem_map.mpr ⟨f, hf, rfl⟩)
      · exact Or.inl (Or.inl (List.mem_map.mpr ⟨f, List.mem_filter.mpr
          ⟨hf, decide_eq_true hu⟩, rfl⟩))
    · rcases List.mem_map.mp h with ⟨g, hg, rfl⟩
      by_cases ht : g.1 ∈ ft.map (fun x => x.1)
      · exact Or.inl (Or.inr (List.mem_map.mpr ⟨g, List.mem_filter.mpr
          ⟨hg, decide_eq_true ht⟩, rfl⟩))
      · exact Or.inr (List.mem_map.mpr ⟨g, List.mem_filter.mpr
          ⟨hg, decide_eq_true ht⟩, rfl⟩)

/-- Claim C6: for object shapes `T` and `U` (with duplicate-free key lists),
`Assign<T, U>` is the shallow merge: `U`'s version wins on every key
collision, every property only in `U` is added, every property only in `T` is
kept, and the key set is the union of both; in particular
`Assign<Props, NewProps>` has exactly the properties
`{name: string; age: string; visible: boolean; other: string}`. -/
theorem claim_C6 (ft fu : List ObjField)
    (hT : (ft.map (fun f => f.1)).Nodup) (hU : (fu.map (fun f => f.1)).Nodup) :
    (∀ f ∈ fu, lookupField f.1 (Assign (Ty.obj ft) (Ty.obj fu)) = some f) ∧
    (∀ f ∈ ft, f.1 ∉ fu.map (fun g => g.1) →
      lookupField f.1 (Assign (Ty.obj ft) (Ty.obj fu)) = some f) ∧
    (∀ k, k ∈ tyKeys (Assign (Ty.obj ft) (Ty.obj fu)) ↔
      (k ∈ ft.map (fun g => g.1) ∨ k ∈ fu.map (fun g => g.1))) ∧
    (flattenFields (Assign Props NewProps)).Perm
      [("name", false, false, Ty.str), ("age", false, false, Ty.str),
        ("visible", false, false, Ty.boolean), ("other", false, false, Ty.str)] := by
  refine ⟨?_, ?_, fun k => assign_keys ft fu k, ?_⟩
  · intro f hf
    rw [lookupField, assign_obj]
    simp only [flattenFields]
    rw [List.find?_append, List.find?_append]
    have hd : (ft.filter (fun f => decide (f.1 ∉ fu.map (fun g => g.1)))).find?
        (fun g => g.1 == f.1) = none := by
      apply find?_name_of_not_mem
      intro hmem
      rcases List.mem_map.mp hmem with ⟨g, hg, hgf⟩
      have := (List.mem_filter.mp hg).2
      simp only [decide_eq_true_eq] at this
      exact this (hgf ▸ List.mem_map_of_mem _ hf)
    by_cases hft : f.1 ∈ ft.map (fun g => g.1)
    · have hi : (fu.filter (fun f => decide (f.1 ∈ ft.map (fun g => g.1)))).find?
          (fun g => g.1 == f.1) = some f := by
        apply find?_name_of_mem _ (nodup_filter_names _ _ hU)
        exact List.mem_filter.mpr ⟨hf, decide_eq_true hft⟩
      rw [hd, hi, Option.none_or, Option.or_some]
    · have hi : (fu.filter (fun f => decide (f.1 ∈ ft.map (fun g => g.1)))).find?
          (fun g => g.1 == f.1) = none := by
        apply find?_name_of_not_mem
        intro hmem
        rcases List.mem_map.mp hmem with ⟨g, hg, hgf⟩
        have := (List.mem_filter.mp hg).2
        simp only [decide_eq_true_eq] at this
        exact hft (hgf ▸ this)
      have hd2 : (fu.filter (fun f => decide (f.1 ∉ ft.map (fun g => g.1)))).find?
          (fun g => g.1 == f.1) = some f := by
        apply find?_name_of_mem _ (nodup_filter_names _ _ hU)
        exact List.mem_filter.mpr ⟨hf, decide_eq_true hft⟩
      rw [hd, hi, hd2, Option.none_or, Option.none_or]
  · intro f hf hfu
    rw [lookupField, assign_obj]
    simp only [flattenFields]
    rw [List.find?_append, List.find?_append]
    have hd : (ft.filter (fun f => decide (f.1 ∉ fu.map (fun g => g.1)))).find?
        (fun g => g.1 == f.1) = some f := by
      apply find?_name_of_mem _ (nodup_filter_names _ _ hT)
      exact List.mem_filter.mpr ⟨hf, decide_eq_true hfu⟩
    rw [hd, Option.or_some, Option.or_some]
  · have he : Assign Props NewProps =
        Ty.obj [("name", false, false, Ty.str), ("visible", false, false, Ty.boolean),
          ("age", false, false, Ty.str), ("other", false, false, Ty.str)] := rfl
    rw [he]
    simp only [flattenFields]
    exact List.Perm.cons _ (List.Perm.swap _ _ _)

/-- Witness for claim C6 at the `Props`/`NewProps` fixture. -/
theorem claim_C6_witness :
    ((([("name", false, false, Ty.str), ("age", false, false, Ty.num),
        ("visible", false, false, Ty.boolean)] : List ObjField).map (fun f => f.1)).Nodup ∧
      (([("age", false, false, Ty.str), ("other", false, false, Ty.str)] :
        List ObjField).map (fun f => f.1)).Nodup) ∧
    lookupField "other" (Assign Props NewProps) = some ("other", false, false, Ty.str) := by
  refine ⟨⟨by decide, by decide⟩, ?_⟩
  exact (claim_C6
    [("name", false, false, Ty.str), ("age", false, false, Ty.num),
      ("visible", false, false, Ty.boolean)]
    [("age", false, false, Ty.str), ("other", false, false, Ty.str)]
    (by decide) (by decide)).1 ("other", false, false, Ty.str) (by simp)

/-- Fixture `NestedFunctionProps` from the `DeepReadonly` test. -/
def NestedFunctionProps : Ty :=
  Ty.obj [("first", false, false, Ty.obj [("second", false, false, Ty.fn [Ty.num] Ty.str)])]

/-- Fixture `NestedFunctionProps` from the `DeepRequired` test (both levels
optional). -/
def NestedFunctionPropsOpt : Ty :=
  Ty.obj [("first", true, false, Ty.obj [("second", true, false, Ty.fn [Ty.num] Ty.str)])]

/-- Fixture `NestedFunctionProps` from the `DeepNonNullable` test (optional
and nullable first level). -/
def NestedFunctionPropsNull : Ty :=
  Ty.obj [("first", true, false,
    Ty.union Ty.nul (Ty.obj [("second", true, false, Ty.fn [Ty.num] Ty.str)]))]

example : DeepReadonly NestedFunctionProps =
    Ty.obj [("first", false, true,
      Ty.obj [("second", false, true, Ty.fn [Ty.num] Ty.str)])] := by
  simp [NestedFunctionProps, DeepReadonly, DeepReadonlyFields]

example : DeepRequired NestedFunctionPropsOpt =
    Ty.obj [("first", false, false,
      Ty.obj [("second", false, false, Ty.fn [Ty.num] Ty.str)])] := by
  simp [NestedFunctionPropsOpt, DeepRequired, DeepRequiredFields, NonUndefined]

example : DeepNonNullable NestedFunctionPropsNull =
    Ty.obj [("first", false, false,
      Ty.obj [("second", false, false, Ty.fn [Ty.num] Ty.str)])] := by
  simp [NestedFunctionPropsNull, DeepNonNullable, DeepNonNullableFields, NonNullableT,
    unionNorm, isNever]

theorem mem_DeepReadonlyFields {fs : List ObjField} {n : String} {o r : Bool} {t : Ty}
    (h : (n, o, r, t) ∈ fs) : (n, o, true, DeepReadonly t) ∈ DeepReadonlyFields fs := by
  induction fs with
  | nil => cases h
  | cons g rest ih =>
    obtain ⟨gn, go, gr, gt⟩ := g
    rcases List.mem_cons.mp h with he | hm
    · simp only [Prod.mk.injEq] at he
      obtain ⟨rfl, rfl, rfl, rfl⟩ := he
      exact List.mem_cons_self _ _
    · exact List.mem_cons_of_mem _ (ih hm)

theorem mem_DeepRequiredFields {fs : List ObjField} {n : String} {o r : Bool} {t : Ty}
    (h : (n, o, r, t) ∈ fs) :
    (n, false, r, DeepRequired (NonUndefined t)) ∈ DeepRequiredFields fs := by
  induction fs with
  | nil => cases h
  | cons g rest ih =>
    obtain ⟨gn, go, gr, gt⟩ := g
    rcases List.mem_cons.mp h with he | hm
    · simp only [Prod.mk.injEq] at he
      obtain ⟨rfl, rfl, rfl, rfl⟩ := he
      rw [DeepRequiredFields]
      exact List.mem_cons_self _ _
    · rw [DeepRequiredFields]
      exact List.mem_cons_of_mem _ (ih hm)

theorem mem_DeepNonNullableFields {fs : List ObjField} {n : String} {o r : Bool} {t : Ty}
    (h : (n, o, r, t) ∈ fs) :
    (n, false, r, DeepNonNullable (NonNullableT t)) ∈ DeepNonNullableFields fs := by
  induction fs with
  | nil => cases h
  | cons g rest ih =>
    obtain ⟨gn, go, gr, gt⟩ := g
    rcases List.mem_cons.mp h with he | hm
    · simp only [Prod.mk.injEq] at he
      obtain ⟨rfl, rfl, rfl, rfl⟩ := he
      rw [DeepNonNullableFields]
      exact List.mem_cons_self _ _
    · rw [DeepNonNullableFields]
      exact List.mem_cons_of_mem _ (ih hm)

/-- Claim C3: each of `DeepReadonly`, `DeepRequired`, `DeepNonNullable` leaves
every function type's signature unchanged, recurses through record and array
structure, and terminates at primitive leaves and callables; in particular an
array of functions keeps its element signature, and on the
nested-record-with-function fixtures of the test file only the data-bearing
structure is transformed while the inner function keeps its signature
`(value: number) => string`. -/
theorem claim_C3 (ps : List Ty) (r : Ty) (fs : List ObjField) (n : String) (o ro : Bool)
    (t : Ty) (hmem : (n, o, ro, Ty.fn ps r) ∈ fs) (hp : isPrimTy t = true) :
    (DeepReadonly (Ty.fn ps r) = Ty.fn ps r ∧ DeepRequired (Ty.fn ps r) = Ty.fn ps r ∧
      DeepNonNullable (Ty.fn ps r) = Ty.fn ps r) ∧
    (DeepReadonly t = t ∧ DeepRequired t = t ∧ DeepNonNullable t = t) ∧
    ((n, o, true, Ty.fn ps r) ∈ flattenFields (DeepReadonly (Ty.obj fs)) ∧
      (n, false, ro, Ty.fn ps r) ∈ flattenFields (DeepRequired (Ty.obj fs)) ∧
      (n, false, ro, Ty.fn ps r) ∈ flattenFields (DeepNonNullable (Ty.obj fs))) ∧
    (DeepReadonly (Ty.arr (Ty.fn ps r)) = Ty.roarr (Ty.fn ps r) ∧
      DeepRequired (Ty.arr (Ty.fn ps r)) = Ty.arr (Ty.fn ps r) ∧
      DeepNonNullable (Ty.arr (Ty.fn ps r)) = Ty.arr (Ty.fn ps r)) ∧
    (DeepReadonly NestedFunctionProps =
        Ty.obj [("first", false, true,
          Ty.obj [("second", false, true, Ty.fn [Ty.num] Ty.str)])] ∧
      DeepRequired NestedFunctionPropsOpt =
        Ty.obj [("first", false, false,
          Ty.obj [("second", false, false, Ty.fn [Ty.num] Ty.str)])] ∧
      DeepNonNullable NestedFunctionPropsNull =
        Ty.obj [("first", false, false,
          Ty.obj [("second", false, false, Ty.fn [Ty.num] Ty.str)])]) := by
  refine ⟨⟨?_, ?_, ?_⟩, ?_, ⟨⟨?_, ?_, ?_⟩, ⟨?_, ?_, ?_⟩, ⟨?_, ?_, ?_⟩⟩⟩
  · simp [DeepReadonly]
  · simp [DeepRequired]
  · simp [DeepNonNullable]
  · cases t <;> simp_all [isPrimTy, DeepReadonly, DeepRequired, DeepNonNullable]
  · have h1 := mem_DeepReadonlyFields hmem
    simp only [DeepReadonly, flattenFields]
    exact h1
  · have h2 := mem_DeepRequiredFields hmem
    have e1 : DeepRequired (NonUndefined (Ty.fn ps r)) = Ty.fn ps r := by
      simp [NonUndefined, DeepRequired]
    rw [e1] at h2
    simp only [DeepRequired, flattenFields]
    exact h2
  · have h3 := mem_DeepNonNullableFields hmem
    have e2 : DeepNonNullable (NonNullableT (Ty.fn ps r)) = Ty.fn ps r := by
      simp [NonNullableT, DeepNonNullable]
    rw [e2] at h3
    simp only [DeepNonNullable, flattenFields]
    exact h3
  · simp [DeepReadonly]
  · simp [DeepRequired, NonUndefined]
  · simp [DeepNonNullable, NonNullableT]
  · simp [NestedFunctionProps, DeepReadonly, DeepReadonlyFields]
  · simp [NestedFunctionPropsOpt, DeepRequired, DeepRequiredFields, NonUndefined]
  · simp [NestedFunctionPropsNull, DeepNonNullable, DeepNonNullableFields, NonNullableT,
      unionNorm, isNever]

/-- Witness for claim C3 at a one-field record holding `() => number` and the
primitive leaf `string`. -/
theorem claim_C3_witness :
    ((("f", false, false, Ty.fn [] Ty.num) : ObjField) ∈
      [(("f", false, false, Ty.fn [] Ty.num) : ObjField)]) ∧
    isPrimTy Ty.str = true ∧
    DeepReadonly (Ty.fn [] Ty.num) = Ty.fn [] Ty.num := by
  refine ⟨by simp, rfl, ?_⟩
  exact (claim_C3 [] Ty.num [("f", false, false, Ty.fn [] Ty.num)] "f" false false
    Ty.str (by simp) rfl).1.1

theorem unionNorm_never_left (b : Ty) : unionNorm Ty.never b = b := by
  simp [unionNorm, isNever]

theorem unionNorm_never_right (a : Ty) : unionNorm a Ty.never = a := by
  by_cases h : isNever a = true
  · rw [isNever_iff] at h
    subst h
    simp [unionNorm, isNever]
  · have hn : isNever Ty.never = true := rfl
    simp [unionNorm, h, hn]

mutual

theorem deepReadonly_idem : (t : Ty) → DeepReadonly (DeepReadonly t) = DeepReadonly t
  | .str => by simp [DeepReadonly]
  | .num => by simp [DeepReadonly]
  | .boolean => by simp [DeepReadonly]
  | .sym => by simp [DeepReadonly]
  | .nul => by simp [DeepReadonly]
  | .undef => by simp [DeepReadonly]
  | .never => by simp [DeepReadonly]
  | .fn ps r => by simp [DeepReadonly]
  | .arr e => by simp [DeepReadonly, deepReadonly_idem e]
  | .roarr e => by simp [DeepReadonly, deepReadonly_idem e]
  | .obj fs => by simp [DeepReadonly, deepReadonlyFields_idem fs]
  | .inter a b => by simp [DeepReadonly, deepReadonly_idem a, deepReadonly_idem b]
  | .union a b => by simp [DeepReadonly, deepReadonly_idem a, deepReadonly_idem b]

theorem deepReadonlyFields_idem : (fs : List ObjField) →
    DeepReadonlyFields (DeepReadonlyFields fs) = DeepReadonlyFields fs
  | [] => by simp [DeepReadonlyFields]
  | (n, o, r, t) :: rest => by
      simp [DeepReadonlyFields, deepReadonly_idem t, deepReadonlyFields_idem rest]

end

theorem isNever_deepRequired (t : Ty) : isNever (DeepRequired t) = isNever t := by
  cases t <;> simp [DeepRequired, isNever]

theorem isNever_deepNonNullable (t : Ty) : isNever (DeepNonNullable t) = isNever t := by
  cases t <;> simp [DeepNonNullable, isNever]

theorem nonUndefined_never : NonUndefined Ty.never = Ty.never := by simp [NonUndefined]

theorem nonNullableT_never : NonNullableT Ty.never = Ty.never := by simp [NonNullableT]

theorem deepRequired_never : DeepRequired Ty.never = Ty.never := by simp [DeepRequired]

theorem deepNonNullable_never : DeepNonNullable Ty.never = Ty.never := by
  simp [DeepNonNullable]

theorem nu_unionNorm (x y : Ty) :
    NonUndefined (unionNorm x y) = unionNorm (NonUndefined x) (NonUndefined y) := by
  by_cases hx : isNever x = true
  · rw [isNever_iff] at hx
    subst hx
    rw [unionNorm_never_left, nonUndefined_never, unionNorm_never_left]
  · by_cases hy : isNever y = true
    · rw [isNever_iff] at hy
      subst hy
      rw [unionNorm_never_right, nonUndefined_never, unionNorm_never_right]
    · have hu : unionNorm x y = Ty.union x y := by simp [unionNorm, hx, hy]
      rw [hu]
      simp [NonUndefined]

theorem nn_unionNorm (x y : Ty) :
    NonNullableT (unionNorm x y) = unionNorm (NonNullableT x) (NonNullableT y) := by
  by_cases hx : isNever x = true
  · rw [isNever_iff] at hx
    subst hx
    rw [unionNorm_never_left, nonNullableT_never, unionNorm_never_left]
  · by_cases hy : isNever y = true
    · rw [isNever_iff] at hy
      subst hy
      rw [unionNorm_never_right, nonNullableT_never, unionNorm_never_right]
    · have hu : unionNorm x y = Ty.union x y := by simp [unionNorm, hx, hy]
      rw [hu]
      simp [NonNullableT]

theorem dr_unionNorm (x y : Ty) :
    DeepRequired (unionNorm x y) = unionNorm (DeepRequired x) (DeepRequired y) := by
  by_cases hx : isNever x = true
  · rw [isNever_iff] at hx
    subst hx
    rw [unionNorm_never_left, deepRequired_never, unionNorm_never_left]
  · by_cases hy : isNever y = true
    · rw [isNever_iff] at hy
      subst hy
      rw [unionNorm_never_right, deepRequired_never, unionNorm_never_right]
    · have hu : unionNorm x y = Ty.union x y := by simp [unionNorm, hx, hy]
      have hu2 : unionNorm (DeepRequired x) (DeepRequired y) =
          Ty.union (DeepRequired x) (DeepRequired y) := by
        simp [unionNorm, isNever_deepRequired, hx, hy]
      rw [hu, hu2]
      simp [DeepRequired]

theorem dnn_unionNorm (x y : Ty) :
    DeepNonNullable (unionNorm x y) = unionNorm (DeepNonNullable x) (DeepNonNullable y) := by
  by_cases hx : isNever x = true
  · rw [isNever_iff] at hx
    subst hx
    rw [unionNorm_never_left, deepNonNullable_never, unionNorm_never_left]
  · by_cases hy : isNever y = true
    · rw [isNever_iff] at hy
      subst hy
      rw [unionNorm_never_right, deepNonNullable_never, unionNorm_never_right]
    · have hu : unionNorm x y = Ty.union x y := by simp [unionNorm, hx, hy]
      have hu2 : unionNorm (DeepNonNullable x) (DeepNonNullable y) =
          Ty.union (DeepNonNullable x) (DeepNonNullable y) := by
        simp [unionNorm, isNever_deepNonNullable, hx, hy]
      rw [hu, hu2]
      simp [DeepNonNullable]

theorem nu_deepRequired_nu : (t : Ty) →
    NonUndefined (DeepRequired (NonUndefined t)) = DeepRequired (NonUndefined t)
  | .str => by simp [NonUndefined, DeepRequired]
  | .num => by simp [NonUndefined, DeepRequired]
  | .boolean => by simp [NonUndefined, DeepRequired]
  | .sym => by simp [NonUndefined, DeepRequired]
  | .nul => by simp [NonUndefined, DeepRequired]
  | .undef => by simp [NonUndefined, DeepRequired]
  | .never => by simp [NonUndefined, DeepRequired]
  | .fn ps r => by simp [NonUndefined, DeepRequired]
  | .arr e => by simp [NonUndefined, DeepRequired]
  | .roarr e => by simp [NonUndefined, DeepRequired]
  | .obj fs => by simp [NonUndefined, DeepRequired]
  | .inter a b => by simp [NonUndefined, DeepRequired]
  | .union a b => by
      have ha := nu_deepRequired_nu a
      have hb := nu_deepRequired_nu b
      calc NonUndefined (DeepRequired (NonUndefined (Ty.union a b)))
          = NonUndefined (DeepRequired (unionNorm (NonUndefined a) (NonUndefined b))) := by
            simp [NonUndefined]
        _ = NonUndefined (unionNorm (DeepRequired (NonUndefined a))
              (DeepRequired (NonUndefined b))) := by rw [dr_unionNorm]
        _ = unionNorm (NonUndefined (DeepRequired (NonUndefined a)))
              (NonUndefined (DeepRequired (NonUndefined b))) := by rw [nu_unionNorm]
        _ = unionNorm (DeepRequired (NonUndefined a)) (DeepRequired (NonUndefined b)) := by
            rw [ha, hb]
        _ = DeepRequired (unionNorm (NonUndefined a) (NonUndefined b)) := by
            rw [dr_unionNorm]
        _ = DeepRequired (NonUndefined (Ty.union a b)) := by simp [NonUndefined]

theorem nn_deepNonNullable_nn : (t : Ty) →
    NonNullableT (DeepNonNullable (NonNullableT t)) = DeepNonNullable (NonNullableT t)
  | .str => by simp [NonNullableT, DeepNonNullable]
  | .num => by simp [NonNullableT, DeepNonNullable]
  | .boolean => by simp [NonNullableT, DeepNonNullable]
  | .sym => by simp [NonNullableT, DeepNonNullable]
  | .nul => by simp [NonNullableT, DeepNonNullable]
  | .undef => by simp [NonNullableT, DeepNonNullable]
  | .never => by simp [NonNullableT, DeepNonNullable]
  | .fn ps r => by simp [NonNullableT, DeepNonNullable]
  | .arr e => by simp [NonNullableT, DeepNonNullable]
  | .roarr e => by simp [NonNullableT, DeepNonNullable]
  | .obj fs => by simp [NonNullableT, DeepNonNullable]
  | .inter a b => by simp [NonNullableT, DeepNonNullable]
  | .union a b => by
      have ha := nn_deepNonNullable_nn a
      have hb := nn_deepNonNullable_nn b
      calc NonNullableT (DeepNonNullable (NonNullableT (Ty.union a b)))
          = NonNullableT (DeepNonNullable (unionNorm (NonNullableT a) (NonNullableT b))) := by
            simp [NonNullableT]
        _ = NonNullableT (unionNorm (DeepNonNullable (NonNullableT a))
              (DeepNonNullable (NonNullableT b))) := by rw [dnn_unionNorm]
        _ = unionNorm (NonNullableT (DeepNonNullable (NonNullableT a)))
              (NonNullableT (DeepNonNullable (NonNullableT b))) := by rw [nn_unionNorm]
        _ = unionNorm (DeepNonNullable (NonNullableT a)) (DeepNonNullable (NonNullableT b)) := by
            rw [ha, hb]
        _ = DeepNonNullable (unionNorm (NonNullableT a) (NonNullableT b)) := by
            rw [dnn_unionNorm]
        _ = DeepNonNullable (NonNullableT (Ty.union a b)) := by simp [NonNullableT]

mutual

theorem deepRequired_idem : (t : Ty) → DeepRequired (DeepRequired t) = DeepRequired t
  | .str => by simp [DeepRequired]
  | .num => by simp [DeepRequired]
  | .boolean => by simp [DeepRequired]
  | .sym => by simp [DeepRequired]
  | .nul => by simp [DeepRequired]
  | .undef => by simp [DeepRequired]
  | .never => by simp [DeepRequired]
  | .fn ps r => by simp [DeepRequired]
  | .arr e => by
      have h1 := nu_deepRequired_nu e
      have h2 := deepRequired_idem (NonUndefined e)
      simp [DeepRequired, h1, h2]
  | .roarr e => by
      have h1 := nu_deepRequired_nu e
      have h2 := deepRequired_idem (NonUndefined e)
      simp [DeepRequired, h1, h2]
  | .obj fs => by simp [DeepRequired, deepRequiredFields_idem fs]
  | .inter a b => by simp [DeepRequired, deepRequired_idem a, deepRequired_idem b]
  | .union a b => by simp [DeepRequired, deepRequired_idem a, deepRequired_idem b]
termination_by t => sizeOf t
decreasing_by
  all_goals simp
  all_goals try (have h := nonUndefined_sizeOf_le e; omega)
  all_goals omega

theorem deepRequiredFields_idem : (fs : List ObjField) →
    DeepRequiredFields (DeepRequiredFields fs) = DeepRequiredFields fs
  | [] => by simp [DeepRequiredFields]
  | (n, o, r, t) :: rest => by
      have h1 := nu_deepRequired_nu t
      have h2 := deepRequired_idem (NonUndefined t)
      have h3 := deepRequiredFields_idem rest
      simp [DeepRequiredFields, h1, h2, h3]
termination_by fs => sizeOf fs
decreasing_by
  all_goals simp
  all_goals (have h := nonUndefined_sizeOf_le t; omega)

end

mutual

theorem deepNonNullable_idem : (t : Ty) →
    DeepNonNullable (DeepNonNullable t) = DeepNonNullable t
  | .str => by simp [DeepNonNullable]
  | .num => by simp [DeepNonNullable]
  | .boolean => by simp [DeepNonNullable]
  | .sym => by simp [DeepNonNullable]
  | .nul => by simp [DeepNonNullable]
  | .undef => by simp [DeepNonNullable]
  | .never => by simp [DeepNonNullable]
  | .fn ps r => by simp [DeepNonNullable]
  | .arr e => by
      have h1 := nn_deepNonNullable_nn e
      have h2 := deepNonNullable_idem (NonNullableT e)
      simp [DeepNonNullable, h1, h2]
  | .roarr e => by
      have h1 := nn_deepNonNullable_nn e
      have h2 := deepNonNullable_idem (NonNullableT e)
      simp [DeepNonNullable, h1, h2]
  | .obj fs => by simp [DeepNonNullable, deepNonNullableFields_idem fs]
  | .inter a b => by
      simp [DeepNonNullable, deepNonNullable_idem a, deepNonNullable_idem b]
  | .union a b => by
      simp [DeepNonNullable, deepNonNullable_idem a, deepNonNullable_idem b]
termination_by t => sizeOf t
decreasing_by
  all_goals simp
  all_goals try (have h := nonNullableT_sizeOf_le e; omega)
  all_goals omega

theorem deepNonNullableFields_idem : (fs : List ObjField) →
    DeepNonNullableFields (DeepNonNullableFields fs) = DeepNonNullableFields fs
  | [] => by simp [DeepNonNullableFields]
  | (n, o, r, t) :: rest => by
      have h1 := nn_deepNonNullable_nn t
      have h2 := deepNonNullable_idem (NonNullableT t)
      have h3 := deepNonNullableFields_idem rest
      simp [DeepNonNullableFields, h1, h2, h3]
termination_by fs => sizeOf fs
decreasing_by
  all_goals simp
  all_goals (have h := nonNullableT_sizeOf_le t; omega)

end

/-- Claim C4: applying the same deep transform (`DeepReadonly`,
`DeepRequired`, or `DeepNonNullable`) twice yields the same type as applying
it once, for every type of the embedded fragment, including types containing
array-typed properties. -/
theorem claim_C4 (t : Ty) :
    DeepReadonly (DeepReadonly t) = DeepReadonly t ∧
    DeepRequired (DeepRequired t) = DeepRequired t ∧
    DeepNonNullable (DeepNonNullable t) = DeepNonNullable t :=
  ⟨deepReadonly_idem t, deepRequired_idem t, deepNonNullable_idem t⟩
